import Mathlib

/-!
Verification of the cross-platform market-matching and arbitrage engine of
the premarket-tracker repository.  The definitions below are shallow
embeddings of the JavaScript helpers generated in
src/polymarket/ui/dashboard.py (extractThreshold, extractDate,
normalizeProject, findLimitlessProject, findMarketMatch, the
renderGapAnalysis matching loop, calculateSplit, renderArbCalculator) and
of the Python helpers in src/polymarket/utils/parsers.py,
limitless_client.py and analyze_liquidity.py.  Prices, volumes and depths
are modelled as rationals; rational division is total with x / 0 = 0, and
wherever a claim depends on the source's behaviour at a zero denominator
the JavaScript division semantics — signed infinities and not-a-number —
is rendered exactly by the JsNum type below.  Strings are processed as
their character lists; the regex searches of the source are embedded as
explicit left-to-right scanners.
-/

/-- Case-insensitive character comparison, used for the IGNORECASE regexes. -/
def lowEq (a b : Char) : Bool := a.toLower == b.toLower

/-- Consume the pattern characters case-insensitively from the front of the
text, returning the remainder on success. -/
def ciStarts : List Char → List Char → Option (List Char)
  | [], l => some l
  | _ :: _, [] => none
  | p :: ps, c :: cs => if lowEq p c then ciStarts ps cs else none

/-- Try a list of literal alternatives in order, as a regex alternation of
plain words does. -/
def runAlts : List String → List Char → Option (List Char)
  | [], _ => none
  | s :: ss, l =>
    match ciStarts s.data l with
    | some r => some r
    | none => runAlts ss l

/-- Greedy one-or-more whitespace. -/
def ws1 : List Char → Option (List Char)
  | [] => none
  | c :: cs => if c.isWhitespace then some (cs.dropWhile Char.isWhitespace) else none

/-- Greedy zero-or-more whitespace. -/
def wsS (l : List Char) : List Char := l.dropWhile Char.isWhitespace

/-- One or two digits, greedy. -/
def d12 : List Char → Option (List Char)
  | [] => none
  | c :: cs =>
    if c.isDigit then
      match cs with
      | d :: ds => if d.isDigit then some ds else some cs
      | [] => some []
    else none

/-- Exactly four digits. -/
def d4 : List Char → Option (List Char)
  | a :: b :: c :: d :: rest =>
    if a.isDigit && b.isDigit && c.isDigit && d.isDigit then some rest else none
  | _ => none

/-- Optional comma. -/
def optComma : List Char → List Char
  | ',' :: cs => cs
  | l => l

/-- Run an optional sub-pattern: keep its consumption when it matches,
otherwise consume nothing. -/
def tryOpt (f : List Char → Option (List Char)) (l : List Char) : List Char :=
  match f l with
  | some r => r
  | none => l

def lowerList (l : List Char) : List Char := l.map Char.toLower

/-- Collapse every whitespace run to a single space, as the source's
replace of a whitespace-run regex by one space does. -/
def collapseWsAux : Bool → List Char → List Char
  | _, [] => []
  | prevWs, c :: cs =>
    if c.isWhitespace then
      if prevWs then collapseWsAux true cs else ' ' :: collapseWsAux true cs
    else c :: collapseWsAux false cs

def collapseWs (l : List Char) : List Char := collapseWsAux false l

/-- Threshold scanner body at one position: optional dollar sign, a
non-empty run of digits and dots, optional whitespace, then a unit letter
b, m or k in either case.  Embeds one attempt of the regex used by both
parsers.extract_threshold and the dashboard's extractThreshold. -/
def thrAt (l : List Char) : Option String :=
  let l1 := match l with
    | '$' :: cs => cs
    | _ => l
  let run := l1.takeWhile (fun c => c.isDigit || c == '.')
  if run.isEmpty then none
  else
    let l2 := (l1.drop run.length).dropWhile Char.isWhitespace
    match l2 with
    | c :: _ =>
      if c == 'b' || c == 'B' || c == 'm' || c == 'M' || c == 'k' || c == 'K' then
        some (String.mk (run ++ [c.toLower]))
      else none
    | [] => none

def thrScan : List Char → Option String
  | [] => none
  | c :: cs =>
    match thrAt (c :: cs) with
    | some r => some r
    | none => thrScan cs

/-- Embedding of extract_threshold (src/polymarket/utils/parsers.py) and of
the identical JavaScript extractThreshold in dashboard.py: the first
occurrence of an optionally-dollar-prefixed number followed by a b/m/k unit
is returned as the lowercased text of number and unit. -/
def extractThreshold (q : String) : Option String := thrScan q.data

def monthNames : List String :=
  ["january", "february", "march", "april", "may", "june", "july",
   "august", "september", "october", "november", "december"]

/-- First date pattern of the dashboard's extractDate: the word by, a month
name, a day of one or two digits, optionally a comma and a four-digit
year. -/
def datePat1 (l : List Char) : Option (List Char) := do
  let r1 ← ciStarts "by".data l
  let r2 ← ws1 r1
  let r3 ← runAlts monthNames r2
  let r4 ← ws1 r3
  let r5 ← d12 r4
  pure (tryOpt (fun x => d4 (wsS (optComma x))) r5)

/-- Second date pattern: by, a quarter q1..q4, optionally a four-digit
year. -/
def datePat2 (l : List Char) : Option (List Char) := do
  let r1 ← ciStarts "by".data l
  let r2 ← ws1 r1
  let r3 ← ciStarts "q".data r2
  match r3 with
  | c :: cs =>
    if c == '1' || c == '2' || c == '3' || c == '4' then
      pure (tryOpt d4 (wsS cs))
    else none
  | [] => none

/-- Third date pattern: by, optionally the words end of, a month name,
optionally a four-digit year. -/
def datePat3 (l : List Char) : Option (List Char) := do
  let r1 ← ciStarts "by".data l
  let r2 ← ws1 r1
  let r3 := tryOpt (fun x => do
    let x1 ← ciStarts "end of".data x
    ws1 x1) r2
  let r4 ← runAlts monthNames r3
  pure (tryOpt (fun x => do
    let x1 ← ws1 x
    d4 x1) r4)

/-- Leftmost match of a pattern, returning the matched substring. -/
def dateScan (pat : List Char → Option (List Char)) : List Char → Option (List Char)
  | [] => none
  | c :: cs =>
    match pat (c :: cs) with
    | some rem => some ((c :: cs).take ((c :: cs).length - rem.length))
    | none => dateScan pat cs

/-- Embedding of the dashboard's extractDate: the three date regexes are
tried in order over the whole question; the matched text is lowercased and
its whitespace runs are collapsed to single spaces.  No calendar
canonicalization is performed. -/
def extractDate (q : String) : Option String :=
  match dateScan datePat1 q.data with
  | some m => some (String.mk (collapseWs (lowerList m)))
  | none =>
    match dateScan datePat2 q.data with
    | some m => some (String.mk (collapseWs (lowerList m)))
    | none =>
      match dateScan datePat3 q.data with
      | some m => some (String.mk (collapseWs (lowerList m)))
      | none => none

/-- One open Polymarket market as the gap-analysis code sees it: the
question text, the current yes price and the closed flag. -/
structure PolyQuote where
  question : String
  price : ℚ
  closed : Bool
deriving DecidableEq

/-- One Polymarket event, holding its markets. -/
structure PolyEvent where
  markets : List PolyQuote
deriving DecidableEq

/-- One Polymarket project entry of projectsData. -/
structure PolyProject where
  name : String
  hasOpenMarkets : Bool
  events : List PolyEvent
deriving DecidableEq

/-- One Limitless market record. -/
structure LimMarket where
  title : String
  slug : String
  yes_price : ℚ
  volume : ℚ
  closed : Bool
deriving DecidableEq

/-- One Limitless project: the markets grouped under one project name. -/
structure LimProject where
  markets : List LimMarket
deriving DecidableEq

/-- The open markets of a Polymarket project, flattened across its events
exactly as the gap-analysis code flattens and filters them. -/
def openMarkets (pp : PolyProject) : List PolyQuote :=
  pp.events.flatMap (fun e => e.markets.filter (fun m => !m.closed))

/-- Embedding of the dashboard's normalizeProject: lowercase, then keep
only the characters a-z and 0-9. -/
def normalizeProject (s : String) : List Char :=
  (s.data.map Char.toLower).filter (fun c => c.isDigit || ('a' ≤ c && c ≤ 'z'))

/-- Does the first list start with the second, exactly. -/
def startsB : List Char → List Char → Bool
  | _, [] => true
  | [], _ :: _ => false
  | c :: cs, p :: ps => c == p && startsB cs ps

/-- Substring test, the semantics of the JavaScript includes method. -/
def containsSub : List Char → List Char → Bool
  | [], sub => sub.isEmpty
  | c :: cs, sub => startsB (c :: cs) sub || containsSub cs sub

/-- The alignment rule of findLimitlessProject: normalized names are equal,
or one contains the other. -/
def nameMatches (polyName limName : String) : Bool :=
  let p := normalizeProject polyName
  let l := normalizeProject limName
  l == p || containsSub l p || containsSub p l

/-- Embedding of the dashboard's findLimitlessProject: scan the Limitless
entries in order and return the first whose name satisfies the
equality-or-substring rule.  No consumed set is kept: the function depends
only on its two arguments. -/
def findLimitlessProject (entries : List (String × LimProject)) (polyName : String) :
    Option (String × LimProject) :=
  match entries with
  | [] => none
  | e :: rest =>
    if nameMatches polyName e.1 then some e else findLimitlessProject rest polyName

/-- Threshold key equality between a Polymarket threshold key and a
Limitless market, as tested inside findMarketMatch. -/
def thrKeyEq (pt : String) (lm : LimMarket) : Bool :=
  match extractThreshold lm.title with
  | some lt => lt == pt
  | none => false

/-- Date key equality between a Polymarket date key and a Limitless
market. -/
def dateKeyEq (pd : String) (lm : LimMarket) : Bool :=
  match extractDate lm.title with
  | some ld => ld == pd
  | none => false

/-- The threshold pass of findMarketMatch: if the Polymarket question has a
threshold key, the first candidate with an equal key. -/
def thresholdStage (q : String) (markets : List LimMarket) : Option LimMarket :=
  match extractThreshold q with
  | some pt => markets.find? (thrKeyEq pt)
  | none => none

/-- The date pass of findMarketMatch: if the Polymarket question has a date
key, the first candidate with an equal key. -/
def dateStage (q : String) (markets : List LimMarket) : Option LimMarket :=
  match extractDate q with
  | some pd => markets.find? (dateKeyEq pd)
  | none => none

/-- The not-yet-consumed Limitless markets, the filter at the top of
findMarketMatch. -/
def unconsumed (lims : List LimMarket) (consumed : List String) : List LimMarket :=
  lims.filter (fun m => !(decide (m.slug ∈ consumed)))

/-- Embedding of the dashboard's findMarketMatch: filter out the already
matched Limitless markets, try the threshold pass, and when it produces
nothing fall through to the date pass.  There is no similarity fallback. -/
def findMarketMatch (q : String) (lims : List LimMarket) (consumed : List String) :
    Option LimMarket :=
  match thresholdStage q (unconsumed lims consumed) with
  | some lm => some lm
  | none => dateStage q (unconsumed lims consumed)

/-- The matching loop of renderGapAnalysis over the open Polymarket markets
of one project: each market is paired with the first matching unconsumed
Limitless market, or recorded as Polymarket-only; matched Limitless slugs
accumulate in the consumed list. -/
def matchLoop (lims : List LimMarket) :
    List PolyQuote → List String →
    List (PolyQuote × LimMarket) × List PolyQuote × List String
  | [], consumed => ([], [], consumed)
  | pm :: rest, consumed =>
    match findMarketMatch pm.question lims consumed with
    | some lm =>
      ((pm, lm) :: (matchLoop lims rest (consumed ++ [lm.slug])).1,
       (matchLoop lims rest (consumed ++ [lm.slug])).2.1,
       (matchLoop lims rest (consumed ++ [lm.slug])).2.2)
    | none =>
      ((matchLoop lims rest consumed).1,
       pm :: (matchLoop lims rest consumed).2.1,
       (matchLoop lims rest consumed).2.2)

/-- The Limitless-only pass of renderGapAnalysis: unconsumed, non-closed
Limitless markets of the aligned project. -/
def limOnlyOf (lims : List LimMarket) (consumed : List String) : List LimMarket :=
  lims.filter (fun m => !(decide (m.slug ∈ consumed)) && !m.closed)

/-- The three buckets renderGapAnalysis produces for one project. -/
structure ProjectReport where
  matched : List (PolyQuote × LimMarket)
  polyOnly : List PolyQuote
  limOnly : List LimMarket
deriving DecidableEq

/-- Processing of one Polymarket project in renderGapAnalysis, given its
aligned Limitless project when one was found. -/
def processProject (pp : PolyProject) (limProj : Option LimProject) : ProjectReport :=
  match limProj with
  | some l =>
    ⟨(matchLoop l.markets (openMarkets pp) []).1,
     (matchLoop l.markets (openMarkets pp) []).2.1,
     limOnlyOf l.markets (matchLoop l.markets (openMarkets pp) []).2.2⟩
  | none => ⟨[], openMarkets pp, []⟩

/-- The whole gap-analysis pass: projects with open markets are processed
in order, each against the first-matching Limitless project.  Limitless
projects never aligned with any processed project are not visited. -/
def gapAnalysis (polyProjects : List PolyProject)
    (limData : List (String × LimProject)) : List ProjectReport :=
  (polyProjects.filter (fun p => p.hasOpenMarkets)).map
    (fun pp => processProject pp ((findLimitlessProject limData pp.name).map Prod.snd))

/-- Number of market quotes referenced by one project report: two per
matched pair, one per exclusive record. -/
def reportRefs (r : ProjectReport) : Nat :=
  2 * r.matched.length + r.polyOnly.length + r.limOnly.length

def totalRefs (rs : List ProjectReport) : Nat := (rs.map reportRefs).sum

/-- Non-closed Polymarket quotes in a snapshot. -/
def openCount (pps : List PolyProject) : Nat :=
  (pps.map (fun pp => (openMarkets pp).length)).sum

/-- Non-closed Limitless quotes in a snapshot. -/
def limNonClosedCount (limData : List (String × LimProject)) : Nat :=
  (limData.map (fun e => (e.2.markets.filter (fun m => !m.closed)).length)).sum

/-- Result record of the dashboard's calculateSplit. -/
structure SplitResult where
  shares : ℚ
  limAmount : ℚ
  polyAmount : ℚ
  payout : ℚ
  profit : ℚ
  profitPct : ℚ
  combinedCost : ℚ
deriving DecidableEq

/-- Embedding of the dashboard's calculateSplit.  The source divides the
budget by combinedCost with no zero guard; here division is the total
rational division with x / 0 = 0. -/
def calculateSplit (budget limYesPrice polyNoPrice : ℚ) : SplitResult :=
  let combinedCost := limYesPrice + polyNoPrice
  let shares := budget / combinedCost
  let limAmount := shares * limYesPrice
  let polyAmount := shares * polyNoPrice
  let payout := shares
  let profit := payout - budget
  let profitPct := (profit / budget) * 100
  ⟨shares, limAmount, polyAmount, payout, profit, profitPct, combinedCost⟩

/-- One row of the arbitrage table built by renderArbCalculator. -/
structure ArbRow where
  question : String
  limYes : ℚ
  polyNo : ℚ
  polyYes : ℚ
  spread : ℚ
  combinedCost : ℚ
deriving DecidableEq

/-- Embedding of the opportunity construction in renderArbCalculator: a
Polymarket market with a threshold key is compared against the Limitless
markets; the first candidate with an equal threshold key decides, and an
opportunity is emitted only when the combined cost is below one. -/
def arbOpp (pm : PolyQuote) (lims : List LimMarket) : Option ArbRow :=
  match extractThreshold pm.question with
  | none => none
  | some pt =>
    match lims.find? (thrKeyEq pt) with
    | none => none
    | some lm =>
      let limYesPrice := lm.yes_price
      let polyNoPrice := 1 - pm.price
      let combinedCost := limYesPrice + polyNoPrice
      if combinedCost < 1 then
        some ⟨pm.question, limYesPrice, polyNoPrice, pm.price, (1 - combinedCost) * 100, combinedCost⟩
      else none

/-- A JavaScript number as the arbitrage computation can produce it: a
finite rational, one of the two infinities, or the not-a-number value.
Finite arithmetic is idealized as exact rational arithmetic; the
division-by-zero boundary, the one float behaviour the arbitrage claims
touch, is rendered with its exact JavaScript sign semantics. -/
inductive JsNum where
  | fin : ℚ → JsNum
  | posInf : JsNum
  | negInf : JsNum
  | nan : JsNum
deriving DecidableEq

/-- JavaScript division of finite values: positive infinity for a positive
numerator over zero, negative infinity for a negative one, not-a-number
for zero over zero, and the exact quotient otherwise. -/
def jsDiv (num den : ℚ) : JsNum :=
  if den = 0 then
    if 0 < num then .posInf else if num < 0 then .negInf else .nan
  else .fin (num / den)

/-- Subtraction of a finite value, as JavaScript extends it to infinities
and not-a-number. -/
def JsNum.subFin : JsNum → ℚ → JsNum
  | .fin q, b => .fin (q - b)
  | .posInf, _ => .posInf
  | .negInf, _ => .negInf
  | .nan, _ => .nan

/-- The comparison result.profit above zero performed by the source on the
computed profit: true for positive finite values and positive infinity,
false for the rest, not-a-number included. -/
def JsNum.gtZero : JsNum → Bool
  | .fin q => decide (0 < q)
  | .posInf => true
  | .negInf => false
  | .nan => false

/-- The profit of calculateSplit with the source's division semantics kept
at the zero-denominator boundary: shares are the budget divided by the
combined cost, the payout equals the shares, and the profit is the payout
minus the budget. -/
def calculateSplitProfitJs (budget limYesPrice polyNoPrice : ℚ) : JsNum :=
  (jsDiv budget (limYesPrice + polyNoPrice)).subFin budget

/-- A volume-to-depth ratio: finite, or the infinity the source produces
when depth is zero and volume positive. -/
inductive Ratio where
  | fin : ℚ → Ratio
  | inf : Ratio
deriving DecidableEq

/-- Comparison of a ratio against a finite bound, with infinity above every
bound, matching the JavaScript comparison against Infinity. -/
def Ratio.gtBound : Ratio → ℚ → Bool
  | .inf, _ => true
  | .fin q, c => decide (c < q)

/-- Embedding of the thinness ratio computed identically in
renderGapAnalysis and analyze_liquidity.py: volume over depth when depth is
positive, otherwise infinity when volume is positive and zero when not. -/
def ratioOf (volume depth : ℚ) : Ratio :=
  if 0 < depth then .fin (volume / depth)
  else if 0 < volume then .inf
  else .fin 0

/-- The thin-book classification: the ratio exceeds ten. -/
def isThin (volume depth : ℚ) : Bool := (ratioOf volume depth).gtBound 10
/-- Tokens of the anchored name-extraction regexes: a case-insensitive
literal, a whitespace run, a word alternation, a digit run, and the
optional M-or-K unit of the committed-sale pattern. -/
inductive Tok where
  | lit : String → Tok
  | ws : Tok
  | alts : List String → Tok
  | digits : Tok
  | optMK : Tok

/-- Run one token against the text. -/
def runTok : Tok → List Char → Option (List Char)
  | .lit s, l => ciStarts s.data l
  | .ws, l => ws1 l
  | .alts ss, l => runAlts ss l
  | .digits, l =>
    match l with
    | c :: cs => if c.isDigit then some (cs.dropWhile Char.isDigit) else none
    | [] => none
  | .optMK, l =>
    match l with
    | c :: cs => if c == 'M' || c == 'K' || c == 'm' || c == 'k' then some cs else some l
    | [] => some l

def runToks : List Tok → List Char → Option (List Char)
  | [], l => some l
  | t :: ts, l =>
    match runTok t l with
    | some r => runToks ts r
    | none => none

/-- An anchored pattern with one lazy capture group: the tokens before the
group and the tokens after it. -/
structure NamePat where
  pre : List Tok
  post : List Tok

/-- Lazy capture search: the shortest non-empty capture after which the
post tokens match. -/
def capSearch (post : List Tok) : List Char → Nat → Option Nat
  | [], _ => none
  | _ :: t, n => if (runToks post t).isSome then some (n + 1) else capSearch post t (n + 1)

/-- Match one anchored pattern at the start of the text and return the
capture. -/
def matchPat (p : NamePat) (l : List Char) : Option (List Char) :=
  match runToks p.pre l with
  | none => none
  | some rest =>
    match capSearch p.post rest 0 with
    | some n => some (rest.take n)
    | none => none

/-- First pattern that matches, in list order. -/
def firstPat : List NamePat → List Char → Option (List Char)
  | [], _ => none
  | p :: ps, l =>
    match matchPat p l with
    | some c => some c
    | none => firstPat ps l

/-- Strip leading and trailing whitespace. -/
def stripChars (l : List Char) : List Char :=
  ((l.dropWhile Char.isWhitespace).reverse.dropWhile Char.isWhitespace).reverse

/-- Strip one trailing corporate-suffix word preceded by whitespace, the
effect of the suffix-cleanup substitution shared by all three
implementations. -/
def cleanupOne (name : List Char) (w : String) : Option (List Char) :=
  let ln := lowerList name
  let lw := lowerList w.data
  if startsB ln.reverse lw.reverse then
    let base := name.take (name.length - lw.length)
    let base' := (base.reverse.dropWhile Char.isWhitespace).reverse
    if base'.length < base.length then some base' else none
  else none

def suffixCleanup (name : List Char) : List Char :=
  match cleanupOne name "Protocol" with
  | some r => r
  | none =>
    match cleanupOne name "Network" with
    | some r => r
    | none =>
      match cleanupOne name "Labs" with
      | some r => r
      | none =>
        match cleanupOne name "Finance" with
        | some r => r
        | none => name

/-- The fallback keywords all three fallback splits use. -/
def splitKeywords : List String :=
  ["market", "FDV", "launch", "airdrop", "IPO", "token", "above"]

/-- Is a whitespace run followed by one of the keywords at this position. -/
def kwHit (l : List Char) : Bool :=
  match ws1 l with
  | some r => splitKeywords.any (fun k => (ciStarts k.data r).isSome)
  | none => false

def kwScan : List Char → Nat → Option Nat
  | [], _ => none
  | c :: cs, i => if kwHit (c :: cs) then some i else kwScan cs (i + 1)

/-- The text before the first whitespace-plus-keyword occurrence, the first
field of the fallback split; the whole text when no keyword occurs. -/
def fallbackSplit (title : List Char) : List Char :=
  match kwScan title 0 with
  | some i => title.take i
  | none => title

/-- Leading-emoji stripping used for Limitless titles: drop the leading run
of pictograph-range or whitespace characters. -/
def isEmojiCh (c : Char) : Bool := 0x1F300 ≤ c.toNat && c.toNat ≤ 0x1F9FF

def stripEmoji (l : List Char) : List Char :=
  l.dropWhile (fun c => isEmojiCh c || c.isWhitespace)

/-- Words of a title, as a whitespace split produces them. -/
def wordsAux : List Char → List Char → List (List Char)
  | [], cur => if cur.isEmpty then [] else [cur.reverse]
  | c :: cs, cur =>
    if c.isWhitespace then
      if cur.isEmpty then wordsAux cs [] else cur.reverse :: wordsAux cs []
    else wordsAux cs (c :: cur)

def wordsOf (l : List Char) : List (List Char) := wordsAux l []

def joinSp : List (List Char) → List Char
  | [] => []
  | [w] => w
  | w :: ws => w ++ ' ' :: joinSp ws

namespace Parsers

/-- The thirteen ordered patterns of PROJECT_NAME_PATTERNS in
src/polymarket/utils/parsers.py. -/
def patterns : List NamePat :=
  [⟨[.lit "will", .ws], [.ws, .lit "launch"]⟩,
   ⟨[.lit "will", .ws], [.ws, .lit "perform"]⟩,
   ⟨[.lit "will", .ws], [.ws, .lit "ipo"]⟩,
   ⟨[.lit "will", .ws], [.ws, .alts ["token", "tge", "have"]]⟩,
   ⟨[], [.ws, .lit "market cap"]⟩,
   ⟨[], [.ws, .lit "fdv", .ws, .lit "above"]⟩,
   ⟨[], [.ws, .lit "airdrop"]⟩,
   ⟨[], [.ws, .lit "ipo", .ws, .lit "closing"]⟩,
   ⟨[], [.ws, .lit "public", .ws, .lit "sale"]⟩,
   ⟨[], [.ws, .alts ["token", "tge", "launch", "fdv", "market", "above", "below"]]⟩,
   ⟨[], [.ws, .alts ["trading", "airdrop"]]⟩,
   ⟨[.lit "over", .ws, .lit "$", .digits, .optMK, .ws, .lit "committed", .ws,
     .lit "to", .ws, .lit "the", .ws], [.ws, .lit "public"]⟩,
   ⟨[.lit "what", .ws, .lit "day", .ws, .lit "will", .ws, .lit "the", .ws],
    [.ws, .lit "airdrop"]⟩]

/-- Embedding of extract_project_name in src/polymarket/utils/parsers.py:
empty titles give Unknown; optional emoji stripping; the first of thirteen
patterns wins, with suffix cleanup; otherwise the keyword-split fallback
when its first field is non-empty; otherwise the title truncated to thirty
characters. -/
def extract_project_name (title : String) (remove_emoji : Bool) : String :=
  if title.data.isEmpty then "Unknown"
  else
    let t0 := if remove_emoji then stripChars (stripEmoji title.data) else title.data
    match firstPat patterns t0 with
    | some cap => String.mk (suffixCleanup (stripChars cap))
    | none =>
      let fb := stripChars (fallbackSplit t0)
      if fb.isEmpty then String.mk (t0.take 30) else String.mk fb

end Parsers

namespace Dashboard

/-- The ten ordered patterns of the dashboard's inline
extract_project_name. -/
def patterns : List NamePat :=
  [⟨[.lit "will", .ws], [.ws, .lit "launch"]⟩,
   ⟨[.lit "will", .ws], [.ws, .lit "perform"]⟩,
   ⟨[.lit "will", .ws], [.ws, .lit "ipo"]⟩,
   ⟨[], [.ws, .lit "market cap"]⟩,
   ⟨[], [.ws, .lit "fdv", .ws, .lit "above"]⟩,
   ⟨[], [.ws, .lit "airdrop"]⟩,
   ⟨[], [.ws, .lit "ipo", .ws, .lit "closing"]⟩,
   ⟨[], [.ws, .lit "public", .ws, .lit "sale"]⟩,
   ⟨[.lit "over", .ws, .lit "$", .digits, .optMK, .ws, .lit "committed", .ws,
     .lit "to", .ws, .lit "the", .ws], [.ws, .lit "public"]⟩,
   ⟨[.lit "what", .ws, .lit "day", .ws, .lit "will", .ws, .lit "the", .ws],
    [.ws, .lit "airdrop"]⟩]

/-- Embedding of the dashboard's inline extract_project_name: ten patterns,
then the keyword-split fallback, whose first field is always returned since
the split list is never empty; the truncation branch of the source is
unreachable. -/
def extract_project_name (title : String) : String :=
  match firstPat patterns title.data with
  | some cap => String.mk (suffixCleanup (stripChars cap))
  | none => String.mk (stripChars (fallbackSplit title.data))

end Dashboard

namespace Limitless

/-- The three ordered patterns of extract_project_name in
limitless_client.py. -/
def patterns : List NamePat :=
  [⟨[.lit "will", .ws], [.ws, .alts ["launch", "token", "tge", "have"]]⟩,
   ⟨[], [.ws, .alts ["token", "tge", "launch", "fdv", "market", "above", "below"]]⟩,
   ⟨[], [.ws, .alts ["trading", "airdrop"]]⟩]

/-- Embedding of extract_project_name in limitless_client.py: emoji
stripping always, three patterns with suffix cleanup, and a first-two-words
fallback. -/
def extract_project_name (title : String) : String :=
  let t0 := stripChars (stripEmoji title.data)
  match firstPat patterns t0 with
  | some cap => String.mk (suffixCleanup (stripChars cap))
  | none => String.mk (joinSp ((wordsOf t0).take 2))

end Limitless

/-- Splitting a filter over a predicate and its negation preserves length. -/
theorem length_filter_split {α : Type} (l : List α) (p : α → Bool) :
    (l.filter p).length + (l.filter (fun a => !(p a))).length = l.length := by
  induction l with
  | nil => simp
  | cons a t ih =>
    cases h : p a <;> simp [List.filter_cons, h] <;> omega

/-- Filtering on a property of the image commutes with mapping, in
length. -/
theorem length_filter_comp {α β : Type} (l : List α) (f : α → β) (p : β → Bool) :
    (l.filter (fun a => p (f a))).length = ((l.map f).filter p).length := by
  induction l with
  | nil => rfl
  | cons a t ih =>
    cases h : p (f a) <;> simp [List.filter_cons, h, ih]

/-- Filtering a duplicate-free list down to membership in a duplicate-free
sub-collection keeps exactly that collection's length. -/
theorem length_filter_mem {α : Type} [DecidableEq α] (s c : List α)
    (hs : s.Nodup) (hc : c.Nodup) (hsub : ∀ x ∈ c, x ∈ s) :
    (s.filter (fun a => decide (a ∈ c))).length = c.length := by
  have ht : (s.filter (fun a => decide (a ∈ c))).Nodup := hs.filter _
  have hperm : (s.filter (fun a => decide (a ∈ c))).Perm c := by
    apply List.perm_of_nodup_nodup_toFinset_eq ht hc
    ext x
    simp only [List.mem_toFinset, List.mem_filter, decide_eq_true_eq]
    exact ⟨fun h => h.2, fun h => ⟨hsub x h, h⟩⟩
  exact hperm.length_eq

/-- A successful threshold pass returns one of its candidates. -/
theorem mem_of_thresholdStage (q : String) (markets : List LimMarket) (lm : LimMarket)
    (h : thresholdStage q markets = some lm) : lm ∈ markets := by
  unfold thresholdStage at h
  cases hq : extractThreshold q with
  | none => rw [hq] at h; cases h
  | some pt => rw [hq] at h; exact List.mem_of_find?_eq_some h

/-- A successful date pass returns one of its candidates. -/
theorem mem_of_dateStage (q : String) (markets : List LimMarket) (lm : LimMarket)
    (h : dateStage q markets = some lm) : lm ∈ markets := by
  unfold dateStage at h
  cases hq : extractDate q with
  | none => rw [hq] at h; cases h
  | some pd => rw [hq] at h; exact List.mem_of_find?_eq_some h

/-- A market returned by findMarketMatch is an input market whose slug was
not yet consumed. -/
theorem mem_of_findMarketMatch (q : String) (lims : List LimMarket)
    (consumed : List String) (lm : LimMarket)
    (h : findMarketMatch q lims consumed = some lm) :
    lm ∈ lims ∧ lm.slug ∉ consumed := by
  have key : lm ∈ unconsumed lims consumed → lm ∈ lims ∧ lm.slug ∉ consumed := by
    intro hx
    rcases List.mem_filter.mp hx with ⟨h1, h2⟩
    refine ⟨h1, ?_⟩
    simpa using h2
  unfold findMarketMatch at h
  split at h
  · next lm' hts =>
    cases h
    exact key (mem_of_thresholdStage _ _ _ hts)
  · next hts =>
    exact key (mem_of_dateStage _ _ _ h)

/-- Every open Polymarket market lands in exactly one of the matched and
Polymarket-only buckets: the lengths add up. -/
theorem matchLoop_counts (lims : List LimMarket) :
    ∀ (polys : List PolyQuote) (consumed : List String),
    (matchLoop lims polys consumed).1.length
      + (matchLoop lims polys consumed).2.1.length = polys.length := by
  intro polys
  induction polys with
  | nil => intro consumed; simp [matchLoop]
  | cons pm rest ih =>
    intro consumed
    unfold matchLoop
    split
    · next lm _ =>
      have h2 := ih (consumed ++ [lm.slug])
      simp only [List.length_cons]
      omega
    · next _ =>
      have h2 := ih consumed
      simp only [List.length_cons]
      omega

/-- The consumed list coming out of the matching loop is the incoming one
extended by the slugs of the matched Limitless markets, in order. -/
theorem matchLoop_consumed (lims : List LimMarket) :
    ∀ (polys : List PolyQuote) (consumed : List String),
    (matchLoop lims polys consumed).2.2
      = consumed ++ (matchLoop lims polys consumed).1.map (fun x => x.2.slug) := by
  intro polys
  induction polys with
  | nil => intro consumed; simp [matchLoop]
  | cons pm rest ih =>
    intro consumed
    unfold matchLoop
    split
    · next lm _ =>
      rw [ih (consumed ++ [lm.slug])]
      simp
    · next _ =>
      rw [ih consumed]

/-- Starting from a duplicate-free consumed list, the loop keeps it
duplicate-free, and every matched Limitless market is an input market. -/
theorem matchLoop_nodup (lims : List LimMarket) :
    ∀ (polys : List PolyQuote) (consumed : List String), consumed.Nodup →
    ((matchLoop lims polys consumed).2.2).Nodup ∧
    ∀ x ∈ (matchLoop lims polys consumed).1, x.2 ∈ lims := by
  intro polys
  induction polys with
  | nil =>
    intro consumed hc
    refine ⟨by simpa [matchLoop] using hc, ?_⟩
    simp [matchLoop]
  | cons pm rest ih =>
    intro consumed hc
    unfold matchLoop
    split
    · next lm hfmm =>
      obtain ⟨hmem, hnot⟩ := mem_of_findMarketMatch _ _ _ _ hfmm
      have hc' : (consumed ++ [lm.slug]).Nodup := by
        rw [List.nodup_append]
        refine ⟨hc, List.nodup_singleton _, ?_⟩
        intro a hac hal
        rw [List.mem_singleton] at hal
        exact hnot (hal ▸ hac)
      obtain ⟨ih1, ih2⟩ := ih (consumed ++ [lm.slug]) hc'
      refine ⟨ih1, ?_⟩
      intro x hx
      rcases List.mem_cons.mp hx with h | h
      · rw [h]; exact hmem
      · exact ih2 x h
    · next _ =>
      obtain ⟨ih1, ih2⟩ := ih consumed hc
      exact ⟨ih1, fun x hx => ih2 x hx⟩

/-- The matched Polymarket quotes together with the Polymarket-only quotes
are a permutation of the open input quotes. -/
theorem matchLoop_perm (lims : List LimMarket) :
    ∀ (polys : List PolyQuote) (consumed : List String),
    ((matchLoop lims polys consumed).1.map Prod.fst
      ++ (matchLoop lims polys consumed).2.1).Perm polys := by
  intro polys
  induction polys with
  | nil => intro consumed; simp [matchLoop]
  | cons pm rest ih =>
    intro consumed
    unfold matchLoop
    split
    · next lm _ =>
      simpa using (ih (consumed ++ [lm.slug])).cons pm
    · next _ =>
      exact List.perm_middle.trans ((ih consumed).cons pm)

/-- When every Limitless market of the project is open, the
Limitless-only bucket is the unconsumed filter alone. -/
theorem limOnlyOf_of_open (lims : List LimMarket) (c : List String)
    (hop : ∀ m ∈ lims, m.closed = false) :
    limOnlyOf lims c = lims.filter (fun m => !(decide (m.slug ∈ c))) := by
  unfold limOnlyOf
  apply List.filter_congr
  intro m hm
  simp [hop m hm]
/-- C1, counterexample: the canonicalization in the code is textual, not
numeric.  The threshold keys of the dollar-500M and dollar-0.5B spellings
are the distinct strings 500m and 0.5b, and the matcher, which compares
keys by plain equality, does not pair two quotes written that way — the
claimed common numeric value 500,000,000 is never produced. -/
theorem threshold_500M_05B_mismatch :
    extractThreshold "$500M" = some "500m"
    ∧ extractThreshold "$0.5B" = some "0.5b"
    ∧ extractThreshold "$500M" ≠ extractThreshold "$0.5B"
    ∧ findMarketMatch "Zama FDV above $500M one day after launch?"
        [⟨"Zama FDV above $0.5B", "zama-05b", 0, 0, false⟩] [] = none := by
  exact ⟨by decide, by decide, by decide, by decide⟩

/-- C1, amended claim: threshold canonicalization maps a textual threshold
to the lowercased concatenation of its numeric text and unit letter (no
unit scaling), and the Market Matcher pairs two quotes exactly when these
textual keys are equal; equal spellings such as dollar-500M on both sides
do match. -/
theorem threshold_canonicalization_textual :
    extractThreshold "Zama FDV above $500M one day after launch?" = some "500m"
    ∧ extractThreshold "Zama FDV above $0.5B" = some "0.5b"
    ∧ findMarketMatch "Zama FDV above $500M one day after launch?"
        [⟨"Zama FDV above $500M", "zama-500m", 0, 0, false⟩] []
      = some ⟨"Zama FDV above $500M", "zama-500m", 0, 0, false⟩ := by
  exact ⟨by decide, by decide, by decide⟩

/-- C2, counterexample: the aligner keeps no consumed set, so one
Limitless project is returned for two distinct Polymarket projects in the
same run. -/
theorem aligner_reuses_limitless_project :
    findLimitlessProject [("Solana", (⟨[]⟩ : LimProject))] "Sol"
      = some ("Solana", ⟨[]⟩)
    ∧ findLimitlessProject [("Solana", (⟨[]⟩ : LimProject))] "Solana"
      = some ("Solana", ⟨[]⟩)
    ∧ ("Sol" : String) ≠ "Solana" := by
  exact ⟨by decide, by decide, by decide⟩

/-- C2, amended claim: alignment is greedy first-match without
consumption.  For every Polymarket name the aligner returns the first
Limitless entry, in iteration order, satisfying the
equality-or-substring rule, independently of the alignments made for other
Polymarket projects; the same Limitless project can therefore be paired
with several Polymarket projects. -/
theorem findLimitlessProject_first_match (entries : List (String × LimProject))
    (p : String) (e : String × LimProject)
    (h : findLimitlessProject entries p = some e) :
    ∃ pre post, entries = pre ++ e :: post
      ∧ nameMatches p e.1 = true
      ∧ ∀ x ∈ pre, nameMatches p x.1 = false := by
  induction entries with
  | nil => cases h
  | cons a rest ih =>
    unfold findLimitlessProject at h
    by_cases hm : nameMatches p a.1 = true
    · rw [if_pos hm] at h
      cases h
      exact ⟨[], rest, rfl, hm, by intro x hx; cases hx⟩
    · rw [if_neg hm] at h
      obtain ⟨pre, post, heq, hme, hall⟩ := ih h
      refine ⟨a :: pre, post, by rw [heq]; rfl, hme, ?_⟩
      intro x hx
      rcases List.mem_cons.mp hx with hxa | hx'
      · rw [hxa]
        exact Bool.eq_false_iff.mpr hm
      · exact hall x hx'

/-- Witness for the first-match characterization of the aligner at a
concrete entry list. -/
theorem findLimitlessProject_first_match_witness :
    ∃ pre post,
      ([("Foo", (⟨[]⟩ : LimProject)), ("Zama", ⟨[]⟩)] : List (String × LimProject))
        = pre ++ ("Zama", (⟨[]⟩ : LimProject)) :: post
      ∧ nameMatches "Zama" ("Zama", (⟨[]⟩ : LimProject)).1 = true
      ∧ ∀ x ∈ pre, nameMatches "Zama" x.1 = false :=
  findLimitlessProject_first_match
    [("Foo", ⟨[]⟩), ("Zama", ⟨[]⟩)] "Zama" ("Zama", ⟨[]⟩) (by decide)

/-- C5, counterexample: a Polymarket question in which a threshold pattern
matches is nevertheless paired through the date stage when no candidate
carries an equal threshold key: the two questions below hold the distinct
threshold keys 5b and 2b yet are paired by their common date phrase. -/
theorem date_match_despite_threshold :
    extractThreshold "Will XYZ reach $5B by March 15?" = some "5b"
    ∧ extractThreshold "XYZ at $2B by March 15" = some "2b"
    ∧ findMarketMatch "Will XYZ reach $5B by March 15?"
        [⟨"XYZ at $2B by March 15", "xyz-2b", 0, 0, false⟩] []
      = some ⟨"XYZ at $2B by March 15", "xyz-2b", 0, 0, false⟩ := by
  exact ⟨by decide, by decide, by decide⟩

/-- C5, amended claim: the threshold pass runs first and decides the match
whenever it finds a candidate with an equal threshold key; when the
threshold pass produces nothing — including when the question does carry a
threshold key that no candidate equals — the matcher falls through to the
date pass. -/
theorem threshold_stage_precedence (q : String) (lims : List LimMarket)
    (consumed : List String) :
    (∀ lm, thresholdStage q (unconsumed lims consumed) = some lm →
      findMarketMatch q lims consumed = some lm)
    ∧ (thresholdStage q (unconsumed lims consumed) = none →
      findMarketMatch q lims consumed = dateStage q (unconsumed lims consumed)) := by
  constructor
  · intro lm h
    unfold findMarketMatch
    rw [h]
  · intro h
    unfold findMarketMatch
    rw [h]

/-- Witness for the precedence of the threshold pass at a concrete
question and candidate list. -/
theorem threshold_stage_precedence_witness :
    findMarketMatch "Zama FDV above $500M?" [⟨"Zama $500M", "z1", 0, 0, false⟩] []
      = some ⟨"Zama $500M", "z1", 0, 0, false⟩ :=
  (threshold_stage_precedence "Zama FDV above $500M?"
    [⟨"Zama $500M", "z1", 0, 0, false⟩] []).1
    ⟨"Zama $500M", "z1", 0, 0, false⟩ (by decide)

/-- C6, counterexample: date extraction returns the matched phrase, not a
canonical calendar date: the claimed value 2026-03-15 is never produced,
with or without a current-year default. -/
theorem extractDate_not_canonical :
    extractDate "Will Monad launch a token by March 15?" = some "by march 15"
    ∧ extractDate "Will Monad launch a token by March 15?" ≠ some "2026-03-15" := by
  exact ⟨by decide, by decide⟩

/-- C6, amended claim: date extraction returns the matched question phrase
lowercased with whitespace runs collapsed — for example by march 15 — with
no month-number mapping and no year default, and the matcher pairs markets
whose phrases are equal. -/
theorem extractDate_phrase_keys :
    extractDate "Will Monad launch a token by March 15?" = some "by march 15"
    ∧ extractDate "Will X launch by March 31, 2026?" = some "by march 31, 2026"
    ∧ extractDate "token by Q1 2026" = some "by q1 2026"
    ∧ extractDate "no deadline here" = none
    ∧ findMarketMatch "Will Monad launch a token by March 15?"
        [⟨"Monad token by March 15", "mon-0315", 0, 0, false⟩] []
      = some ⟨"Monad token by March 15", "mon-0315", 0, 0, false⟩ := by
  exact ⟨by decide, by decide, by decide, by decide, by decide⟩
/-- C4: for a threshold-matched pair, the arbitrage pass yields no
opportunity exactly when the combined cost is at least one; and under the
documented unit-interval price invariant, for every combined cost below
one and every positive budget the computed profit passes the source's
strictly-positive check.  The profit is computed with the source's
division semantics kept at the zero-denominator boundary: at combined
cost zero the division of a positive budget by zero gives positive
infinity, the profit is positive infinity, and the source's
profit-above-zero comparison accepts it.  Away from that boundary the
profit coincides with the rational calculateSplit profit, as the third
part states. -/
theorem arb_null_iff_cost_ge_one_and_profit_positive (pm : PolyQuote)
    (lims : List LimMarket) (lm : LimMarket) (pt : String)
    (h1 : extractThreshold pm.question = some pt)
    (h2 : lims.find? (thrKeyEq pt) = some lm)
    (hl : 0 ≤ lm.yes_price) (hp : pm.price ≤ 1) :
    (arbOpp pm lims = none ↔ 1 ≤ lm.yes_price + (1 - pm.price))
    ∧ (∀ b : ℚ, 0 < b → lm.yes_price + (1 - pm.price) < 1 →
        (calculateSplitProfitJs b lm.yes_price (1 - pm.price)).gtZero = true)
    ∧ (∀ b : ℚ, lm.yes_price + (1 - pm.price) ≠ 0 →
        calculateSplitProfitJs b lm.yes_price (1 - pm.price)
          = JsNum.fin ((calculateSplit b lm.yes_price (1 - pm.price)).profit)) := by
  refine ⟨?_, ?_, ?_⟩
  · unfold arbOpp
    rw [h1]
    dsimp only
    rw [h2]
    dsimp only
    split
    · next hlt =>
      exact Iff.intro (fun hc => by cases hc) (fun hge => absurd hge (not_le.mpr hlt))
    · next hnlt =>
      exact ⟨fun _ => not_lt.mp hnlt, fun _ => rfl⟩
  · intro b hb hlt
    have hcc0 : 0 ≤ lm.yes_price + (1 - pm.price) := by linarith
    unfold calculateSplitProfitJs jsDiv
    by_cases h0 : lm.yes_price + (1 - pm.price) = 0
    · rw [if_pos h0, if_pos hb]
      rfl
    · rw [if_neg h0]
      have hccpos : 0 < lm.yes_price + (1 - pm.price) := lt_of_le_of_ne hcc0 (Ne.symm h0)
      have h3 : b * (lm.yes_price + (1 - pm.price)) < b := by nlinarith
      have h4 : b < b / (lm.yes_price + (1 - pm.price)) := (lt_div_iff₀ hccpos).mpr h3
      show (JsNum.fin (b / (lm.yes_price + (1 - pm.price)) - b)).gtZero = true
      simp only [JsNum.gtZero, decide_eq_true_eq]
      linarith
  · intro b hne
    unfold calculateSplitProfitJs jsDiv
    rw [if_neg hne]
    rfl

/-- Witness for the arbitrage boundary at a concrete matched pair with
combined cost 0.7 and budget 100. -/
theorem arb_null_iff_cost_ge_one_and_profit_positive_witness :
    (calculateSplitProfitJs 100 ((2 : ℚ)/5) (1 - 7/10)).gtZero = true :=
  (arb_null_iff_cost_ge_one_and_profit_positive ⟨"Zama FDV above $500M?", 7/10, false⟩
    [⟨"Zama $500M", "s1", 2/5, 0, false⟩] ⟨"Zama $500M", "s1", 2/5, 0, false⟩
    "500m" (by decide) (by rfl) (by norm_num) (by norm_num)).2.1
    100 (by norm_num) (by norm_num)

/-- C7: the capital split is linear in the budget.  With positive combined
cost, positive budget and positive scale factor, scaling the budget scales
shares, both spends and the profit by the same factor, while the profit
percentage is unchanged. -/
theorem calculateSplit_budget_linearity (b k l p : ℚ)
    (hcc : 0 < l + p) (hb : 0 < b) (hk : 0 < k) :
    (calculateSplit (k * b) l p).shares = k * (calculateSplit b l p).shares
    ∧ (calculateSplit (k * b) l p).limAmount = k * (calculateSplit b l p).limAmount
    ∧ (calculateSplit (k * b) l p).polyAmount = k * (calculateSplit b l p).polyAmount
    ∧ (calculateSplit (k * b) l p).profit = k * (calculateSplit b l p).profit
    ∧ (calculateSplit (k * b) l p).profitPct = (calculateSplit b l p).profitPct := by
  have hb' : b ≠ 0 := ne_of_gt hb
  have hk' : k ≠ 0 := ne_of_gt hk
  have hcc' : l + p ≠ 0 := ne_of_gt hcc
  refine ⟨?_, ?_, ?_, ?_, ?_⟩
  · show k * b / (l + p) = k * (b / (l + p))
    ring
  · show k * b / (l + p) * l = k * (b / (l + p) * l)
    ring
  · show k * b / (l + p) * p = k * (b / (l + p) * p)
    ring
  · show k * b / (l + p) - k * b = k * (b / (l + p) - b)
    ring
  · show (k * b / (l + p) - k * b) / (k * b) * 100 = (b / (l + p) - b) / b * 100
    field_simp
    ring

/-- Witness for budget linearity at budget 100, factor 2 and combined cost
0.7. -/
theorem calculateSplit_budget_linearity_witness :
    (calculateSplit (2 * 100) ((2 : ℚ)/5) (3/10)).shares
      = 2 * (calculateSplit 100 ((2 : ℚ)/5) (3/10)).shares :=
  (calculateSplit_budget_linearity 100 2 (2/5) (3/10)
    (by norm_num) (by norm_num) (by norm_num)).1

/-- C8: with a non-negative depth, the thinness ratio equals volume over
depth when the depth is positive, is infinite when the depth is zero and
the volume positive, and is zero when both are zero; and the thin-book
classification holds exactly when the ratio exceeds ten, infinity counting
as above every bound.  For a negative depth, excluded by the documented
invariant, the source takes the same branch as for depth zero. -/
theorem thinness_ratio_spec (v d : ℚ) :
    (0 < d → ratioOf v d = Ratio.fin (v / d))
    ∧ (d = 0 → 0 < v → ratioOf v d = Ratio.inf)
    ∧ (d = 0 → v = 0 → ratioOf v d = Ratio.fin 0)
    ∧ (isThin v d = true ↔ (if 0 < d then 10 < v / d else 0 < v)) := by
  refine ⟨?_, ?_, ?_, ?_⟩
  · intro h
    unfold ratioOf
    rw [if_pos h]
  · intro h0 hv
    unfold ratioOf
    rw [if_neg (by rw [h0]; exact lt_irrefl 0), if_pos hv]
  · intro h0 hv
    unfold ratioOf
    rw [if_neg (by rw [h0]; exact lt_irrefl 0), if_neg (by rw [hv]; exact lt_irrefl 0)]
  · unfold isThin ratioOf
    by_cases h : 0 < d
    · rw [if_pos h, if_pos h]
      simp [Ratio.gtBound]
    · rw [if_neg h, if_neg h]
      by_cases hv : 0 < v
      · rw [if_pos hv]
        simp [Ratio.gtBound, hv]
      · rw [if_neg hv]
        simp [Ratio.gtBound, hv]

/-- Witness for the thinness classification at volume 50 and depth 4. -/
theorem thinness_ratio_spec_witness :
    ratioOf 50 4 = Ratio.fin (50 / 4) :=
  (thinness_ratio_spec 50 4).1 (by norm_num)

/-- C10: calculateSplit holds no guard on the combined cost.  For any
positive combined cost the division is genuine — shares times the combined
cost gives back the budget — while the input with Limitless yes price 0
and Polymarket yes price 1, both inside the documented unit-interval price
invariant, makes the combined cost exactly zero, so the source computes
budget divided by zero (a division rendered total here by the rational
convention x / 0 = 0). -/
theorem calculateSplit_no_zero_guard (b l p : ℚ) (h : 0 < l + p) :
    (calculateSplit b l p).shares * (l + p) = b
    ∧ (calculateSplit b 0 (1 - 1)).combinedCost = 0
    ∧ (calculateSplit b 0 (1 - 1)).shares = b / 0
    ∧ (0 : ℚ) ∈ Set.Icc (0 : ℚ) 1 ∧ (1 : ℚ) ∈ Set.Icc (0 : ℚ) 1 := by
  refine ⟨?_, ?_, ?_, ?_, ?_⟩
  · show b / (l + p) * (l + p) = b
    exact div_mul_cancel₀ b (ne_of_gt h)
  · show (0 : ℚ) + (1 - 1) = 0
    norm_num
  · show b / ((0 : ℚ) + (1 - 1)) = b / 0
    norm_num
  · exact Set.mem_Icc.mpr ⟨le_refl 0, by norm_num⟩
  · exact Set.mem_Icc.mpr ⟨by norm_num, le_refl 1⟩

/-- Witness for the unguarded division at budget 100 and combined cost
0.75. -/
theorem calculateSplit_no_zero_guard_witness :
    (calculateSplit 100 ((1 : ℚ)/2) (1/4)).shares * ((1 : ℚ)/2 + 1/4) = 100
    ∧ (calculateSplit 100 (0 : ℚ) (1 - 1)).combinedCost = 0 := by
  have h := calculateSplit_no_zero_guard 100 (1/2) (1/4) (by norm_num)
  exact ⟨h.1, h.2.1⟩
/-- Concrete Polymarket project Sol for the completeness counterexample. -/
def solPoly : PolyProject :=
  ⟨"Sol", true, [⟨[⟨"Sol FDV above $2B?", 0, false⟩]⟩]⟩

/-- Concrete Polymarket project Solana for the completeness
counterexample. -/
def solanaPoly : PolyProject :=
  ⟨"Solana", true, [⟨[⟨"Solana FDV above $2B?", 0, false⟩]⟩]⟩

/-- Concrete Limitless data with a single project and market for the
completeness counterexample. -/
def solanaLim : List (String × LimProject) :=
  [("Solana", ⟨[⟨"Solana $2B", "sol-2b", 0, 0, false⟩]⟩)]

/-- C3, counterexample: the alignment reuse of C2 breaks snapshot-wide
completeness.  The projects Sol and Solana both align to the single
Limitless project, and its one non-closed market sol-2b is matched twice:
the gap analysis emits four quote references for three non-closed input
quotes, so the Limitless quote appears in two output pairs instead of
exactly one. -/
theorem gap_quote_reference_count_mismatch :
    totalRefs (gapAnalysis [solPoly, solanaPoly] solanaLim) = 4
    ∧ openCount [solPoly, solanaPoly] + limNonClosedCount solanaLim = 3
    ∧ (gapAnalysis [solPoly, solanaPoly] solanaLim).map
        (fun r => r.matched.map (fun x => x.2.slug)) = [["sol-2b"], ["sol-2b"]] := by
  exact ⟨by decide, by decide, by decide⟩

/-- C3, amended claim: completeness holds per aligned project rather than
per snapshot.  For one Polymarket project processed against one aligned
Limitless project whose markets carry pairwise-distinct slugs and are all
non-closed, the quote references of the three output buckets count every
input quote exactly once — two per matched pair plus one per exclusive
equals open Polymarket quotes plus Limitless quotes — no Limitless market
sits in two matched pairs, and the matched and Polymarket-only quotes
together are exactly the open input quotes.  Snapshot-wide the property
fails: a Limitless project aligned to no processed Polymarket project is
never visited, and one aligned to several is visited repeatedly. -/
theorem gap_project_completeness (pp : PolyProject) (L : LimProject)
    (hnd : (L.markets.map (fun m => m.slug)).Nodup)
    (hop : ∀ m ∈ L.markets, m.closed = false) :
    2 * (processProject pp (some L)).matched.length
      + (processProject pp (some L)).polyOnly.length
      + (processProject pp (some L)).limOnly.length
      = (openMarkets pp).length + L.markets.length
    ∧ ((processProject pp (some L)).matched.map (fun x => x.2.slug)).Nodup
    ∧ ((processProject pp (some L)).matched.map Prod.fst
        ++ (processProject pp (some L)).polyOnly).Perm (openMarkets pp) := by
  have hproc : processProject pp (some L)
      = ⟨(matchLoop L.markets (openMarkets pp) []).1,
         (matchLoop L.markets (openMarkets pp) []).2.1,
         limOnlyOf L.markets (matchLoop L.markets (openMarkets pp) []).2.2⟩ := rfl
  rw [hproc]
  have hcons := matchLoop_consumed L.markets (openMarkets pp) []
  simp only [List.nil_append] at hcons
  obtain ⟨hndC, hmemC⟩ := matchLoop_nodup L.markets (openMarkets pp) [] List.nodup_nil
  rw [hcons] at hndC
  have hsub : ∀ s ∈ (matchLoop L.markets (openMarkets pp) []).1.map (fun x => x.2.slug),
      s ∈ L.markets.map (fun m => m.slug) := by
    intro s hs
    rcases List.mem_map.mp hs with ⟨x, hx, hxs⟩
    exact List.mem_map.mpr ⟨x.2, hmemC x hx, hxs⟩
  have h1 := matchLoop_counts L.markets (openMarkets pp) []
  have hlim : (limOnlyOf L.markets (matchLoop L.markets (openMarkets pp) []).2.2).length
      + (matchLoop L.markets (openMarkets pp) []).1.length = L.markets.length := by
    rw [hcons, limOnlyOf_of_open L.markets _ hop]
    have e1 : (L.markets.filter (fun m =>
          decide (m.slug ∈ (matchLoop L.markets (openMarkets pp) []).1.map (fun x => x.2.slug)))).length
        + (L.markets.filter (fun m =>
          !(decide (m.slug ∈ (matchLoop L.markets (openMarkets pp) []).1.map (fun x => x.2.slug))))).length
        = L.markets.length :=
      length_filter_split L.markets _
    have e2 : (L.markets.filter (fun m =>
          decide (m.slug ∈ (matchLoop L.markets (openMarkets pp) []).1.map (fun x => x.2.slug)))).length
        = ((L.markets.map (fun m => m.slug)).filter (fun s =>
          decide (s ∈ (matchLoop L.markets (openMarkets pp) []).1.map (fun x => x.2.slug)))).length :=
      length_filter_comp L.markets (fun m => m.slug) (fun s =>
        decide (s ∈ (matchLoop L.markets (openMarkets pp) []).1.map (fun x => x.2.slug)))
    have e3 : ((L.markets.map (fun m => m.slug)).filter (fun s =>
          decide (s ∈ (matchLoop L.markets (openMarkets pp) []).1.map (fun x => x.2.slug)))).length
        = ((matchLoop L.markets (openMarkets pp) []).1.map (fun x => x.2.slug)).length :=
      length_filter_mem _ _ hnd hndC hsub
    have e4 : ((matchLoop L.markets (openMarkets pp) []).1.map (fun x => x.2.slug)).length
        = (matchLoop L.markets (openMarkets pp) []).1.length := List.length_map _ _
    omega
  exact ⟨by dsimp only; omega, hndC, matchLoop_perm L.markets (openMarkets pp) []⟩

/-- Witness for per-project completeness at a concrete aligned project with
one matched pair. -/
theorem gap_project_completeness_witness :
    2 * (processProject ⟨"Zama", true,
          [⟨[⟨"Zama FDV above $500M one day after launch?", 0, false⟩]⟩]⟩
        (some ⟨[⟨"Zama FDV above $500M", "zama-500m", 0, 0, false⟩]⟩)).matched.length
      + (processProject ⟨"Zama", true,
          [⟨[⟨"Zama FDV above $500M one day after launch?", 0, false⟩]⟩]⟩
        (some ⟨[⟨"Zama FDV above $500M", "zama-500m", 0, 0, false⟩]⟩)).polyOnly.length
      + (processProject ⟨"Zama", true,
          [⟨[⟨"Zama FDV above $500M one day after launch?", 0, false⟩]⟩]⟩
        (some ⟨[⟨"Zama FDV above $500M", "zama-500m", 0, 0, false⟩]⟩)).limOnly.length
      = (openMarkets ⟨"Zama", true,
          [⟨[⟨"Zama FDV above $500M one day after launch?", 0, false⟩]⟩]⟩).length
        + ([⟨"Zama FDV above $500M", "zama-500m", 0, 0, false⟩] : List LimMarket).length :=
  (gap_project_completeness
    ⟨"Zama", true, [⟨[⟨"Zama FDV above $500M one day after launch?", 0, false⟩]⟩]⟩
    ⟨[⟨"Zama FDV above $500M", "zama-500m", 0, 0, false⟩]⟩
    (by decide) (by decide)).1
/-- C9, counterexample: the three project-name extractors disagree.  On
the title Zama trading, the parsers module and the Limitless client both
return Zama through their trading/airdrop pattern, which the dashboard's
inline copy lacks: its fallback split finds no keyword and returns the
whole title. -/
theorem project_name_copies_disagree :
    Parsers.extract_project_name "Zama trading" false = "Zama"
    ∧ Limitless.extract_project_name "Zama trading" = "Zama"
    ∧ Dashboard.extract_project_name "Zama trading" = "Zama trading"
    ∧ Dashboard.extract_project_name "Zama trading"
      ≠ Parsers.extract_project_name "Zama trading" false := by
  exact ⟨by decide, by decide, by decide, by decide⟩

/-- C9, amended claim: the three copies of the Normalizer do not share a
single behaviour over all titles; they do agree on the standard title
forms their common patterns cover, such as a will-launch question and an
FDV-above question, where all three return the same project name. -/
theorem project_name_copies_agree_on_standard_titles :
    (Parsers.extract_project_name "Will Zama launch a token in 2025?" false = "Zama"
     ∧ Dashboard.extract_project_name "Will Zama launch a token in 2025?" = "Zama"
     ∧ Limitless.extract_project_name "Will Zama launch a token in 2025?" = "Zama")
    ∧ (Parsers.extract_project_name "Infinex FDV above $3B one day after launch?" false = "Infinex"
     ∧ Dashboard.extract_project_name "Infinex FDV above $3B one day after launch?" = "Infinex"
     ∧ Limitless.extract_project_name "Infinex FDV above $3B one day after launch?" = "Infinex") := by
  exact ⟨⟨by decide, by decide, by decide⟩, ⟨by decide, by decide, by decide⟩⟩
